import Mathlib

/-!
# Verification of the Outlook mail tool server

A shallow embedding, in Lean, of the core of the Outlook mail tool server:
the retry/backoff HTTP helper and the paginated collection readers of the
Graph-call module, the SQLite token store, the OAuth callback route of the
auth router, and the request gate of the `/execute_tool` endpoint.

Modelling conventions:
* The network is a pure function supplied as a parameter (attempt number to
  outcome for the retry loop, URL to page for pagination); `fuel` arguments
  bound recursion and model the finiteness of server collections.
* JavaScript timestamps (epoch milliseconds, and ISO date-time strings that
  the code only ever compares with `<`, which orders them chronologically)
  are modelled as `Int`.
* A JS value that may be `undefined`/`null` is an `Option`; JS string
  truthiness (`""` is falsy) is `jsTruthy`; `String.prototype.trim` and
  `toLowerCase` are modelled character-wise as `jsTrim` and `jsLower`.
-/

namespace OutlookMCP

/-! ## JS string helpers -/

/-- JS truthiness of a possibly-absent string: absent, `null` and `""` are
falsy, every other string is truthy. -/
def jsTruthy : Option String → Bool
  | some s => !(s == "")
  | none => false

/-- `String.prototype.trim`, character-wise. -/
def jsTrim (s : String) : String :=
  String.mk (((s.data.dropWhile Char.isWhitespace).reverse.dropWhile Char.isWhitespace).reverse)

/-- `String.prototype.toLowerCase`, character-wise. -/
def jsLower (s : String) : String :=
  String.mk (s.data.map Char.toLower)

/-! ## `httpGetWithBackoff` (Graph-call module, lines 14-30) -/

/-- Outcome of one `axios.get` call: a successful response with a payload, or
an HTTP error response carrying its status, the numeric value of its
`retry-after` header (`none` when the header is absent or not numeric, which
`Number(...)` turns into `NaN`), and its body. -/
inductive FetchOutcome (α : Type) where
  | ok (payload : α)
  | err (status : Nat) (retryAfter : Option Int) (body : String)
deriving Repr, DecidableEq

/-- `s === 429 || s >= 500`: the statuses the retry loop treats as retryable. -/
def retryableStatus (s : Nat) : Bool :=
  s == 429 || decide (500 ≤ s)

/-- The sleep duration in seconds chosen before a retry:
`Number(e.response?.headers?.["retry-after"]) || Math.min(2 ** attempt, 16)`.
Because `0` is falsy in JS, a `retry-after` header equal to `0` falls through
`||` to the exponential term exactly like an absent or non-numeric header. -/
def backoffDelay (attempt : Nat) (retryAfter : Option Int) : Int :=
  match retryAfter with
  | some v => if v = 0 then min ((2 : Int) ^ attempt) 16 else v
  | none => min ((2 : Int) ^ attempt) 16

deriving instance DecidableEq for Except

/-- Observable outcome of a whole `httpGetWithBackoff` run: the value returned
or the error thrown (status and body of the last error response), the number
of network calls made, and the sleeps performed, in seconds, in order. -/
structure BackoffRun (α : Type) where
  result : Except (Nat × String) α
  calls : Nat
  delays : List Int
deriving Repr, DecidableEq

/-- The retry loop of `httpGetWithBackoff`, with the network modelled as a map
from attempt number to that attempt's outcome.  `attempt` is the source's loop
counter; `remaining` is `maxRetries - attempt`, so the guard
`attempt < maxRetries` is `remaining > 0`. -/
def httpGetLoop (responses : Nat → FetchOutcome α) : Nat → Nat → BackoffRun α
  | attempt, remaining =>
    match responses attempt with
    | .ok v => ⟨.ok v, 1, []⟩
    | .err s ra b =>
      if retryableStatus s then
        match remaining with
        | 0 => ⟨.error (s, b), 1, []⟩
        | rem + 1 =>
          let rest := httpGetLoop responses (attempt + 1) rem
          ⟨rest.result, rest.calls + 1, backoffDelay attempt ra :: rest.delays⟩
      else ⟨.error (s, b), 1, []⟩

/-- `httpGetWithBackoff(url, headers, maxRetries)`: run the retry loop from
attempt 0. -/
def httpGetWithBackoff (responses : Nat → FetchOutcome α) (maxRetries : Nat) : BackoffRun α :=
  httpGetLoop responses 0 maxRetries

/-! ## Pagination (`listCollection` / `listMessages`, lines 33-54) -/

/-- One page of a Graph collection: the `value` array and the optional
`@odata.nextLink`. -/
structure Page (α : Type) where
  value : List α
  nextLink : Option String
deriving Repr, DecidableEq

/-- The full sequence of items the `listMessages`/`listCollection` generator
yields when driven to exhaustion.  `server` maps each fetched URL to its page
(every fetch succeeds); `fuel` bounds the number of pages, modelling a finite
collection. -/
def listMessagesItems (server : String → Page α) : Nat → String → List α
  | 0, _ => []
  | fuel + 1, url =>
    let p := server url
    match p.nextLink with
    | none => p.value
    | some next => p.value ++ listMessagesItems server fuel next

/-- The URLs the `listMessages` generator fetches when driven to exhaustion:
it advances only through `@odata.nextLink` and stops at the first page with no
link. -/
def listMessagesFetches (server : String → Page α) : Nat → String → List String
  | 0, _ => []
  | fuel + 1, url =>
    match (server url).nextLink with
    | none => [url]
    | some next => url :: listMessagesFetches server fuel next

/-- `pageChain server u rest = true`: starting from URL `u`, the server's
continuation links form exactly the finite chain `u :: rest`, whose last page
carries no link. -/
def pageChain (server : String → Page α) : String → List String → Bool
  | u, [] => (server u).nextLink == none
  | u, v :: rest => ((server u).nextLink == some v) && pageChain server v rest

/-- The body of the readers' `for await` loop over one page's (already shaped)
items: push each item, breaking out of the loop as soon as
`out.length >= bound`.  Returns the new accumulator and whether the loop broke
early. -/
def pushUpTo (bound : Nat) : List α → List α → List α × Bool
  | acc, [] => (acc, false)
  | acc, m :: rest =>
    let acc2 := acc ++ [m]
    if bound ≤ acc2.length then (acc2, true) else pushUpTo bound acc2 rest

/-- A bounded reader driving the `listMessages` generator
(`for await (const m of listMessages(...)) { out.push(shape(m)); if
(out.length >= bound) break; }`).  Because the generator is lazy, a page is
fetched only when the consumer asks for an item beyond the previous page, so
the run also reports how many pages were fetched. -/
def readerRun (server : String → Page α) (shape : α → β) (bound : Nat) :
    Nat → String → List β → List β × Nat
  | 0, _, acc => (acc, 0)
  | fuel + 1, url, acc =>
    let p := server url
    let pushed := pushUpTo bound acc (p.value.map shape)
    if pushed.2 then (pushed.1, 1)
    else
      match p.nextLink with
      | none => (pushed.1, 1)
      | some next =>
        let rest := readerRun server shape bound fuel next pushed.1
        (rest.1, rest.2 + 1)

/-! ## Message shaping (`mapMsg`, lines 57-67) -/

/-- The raw Graph message fields `mapMsg` reads.  `fromAddress` models
`m.from?.emailAddress?.address`. -/
structure GraphMsg where
  id : String
  receivedDateTime : Int
  sentDateTime : Option Int
  createdDateTime : Option Int
  fromAddress : Option String
  subject : String
  bodyPreview : String
  parentFolderId : String
deriving Repr, DecidableEq

/-- The compact shape `mapMsg` produces. -/
structure MappedMsg where
  id : String
  received : Int
  sent : Option Int
  fromAddress : Option String
  subject : String
  preview : String
  folderId : String
deriving Repr, DecidableEq

/-- `mapMsg`: normalize a Graph message into the compact shape
(`sent` is `m.sentDateTime || m.createdDateTime`). -/
def mapMsg (m : GraphMsg) : MappedMsg :=
  ⟨m.id, m.receivedDateTime,
    (match m.sentDateTime with
      | some v => some v
      | none => m.createdDateTime),
    m.fromAddress, m.subject, m.bodyPreview, m.parentFolderId⟩

/-- The `{ results, count }` shape every reader/search returns. -/
structure QueryOut where
  results : List MappedMsg
  count : Nat
deriving Repr, DecidableEq

/-! ## Readers (lines 72-137 and 310-326)

Each reader builds a request URL, then drives `listMessages` through the
bounded `for await` loop above; the URL construction only chooses the query
string sent to the remote service, which the `server` abstraction already
absorbs, so each reader is modelled by its bound applied to `readerRun` on
its start URL. -/

/-- `readLatest(access_token, top)` (lines 72-86). -/
def readLatest (server : String → Page GraphMsg) (top fuel : Nat) (url : String) : QueryOut :=
  let out := (readerRun server mapMsg top fuel url []).1
  ⟨out, out.length⟩

/-- `readSentLatest(access_token, top)` (lines 89-103). -/
def readSentLatest (server : String → Page GraphMsg) (top fuel : Nat) (url : String) : QueryOut :=
  let out := (readerRun server mapMsg top fuel url []).1
  ⟨out, out.length⟩

/-- `readAllMailbox({access_token, max})` (lines 106-120). -/
def readAllMailbox (server : String → Page GraphMsg) (maxN fuel : Nat) (url : String) : QueryOut :=
  let out := (readerRun server mapMsg maxN fuel url []).1
  ⟨out, out.length⟩

/-- `readFolderByIdAll({access_token, folderId, max})` (lines 310-326),
after its `folderId` presence check. -/
def readFolderByIdAll (server : String → Page GraphMsg) (maxN fuel : Nat) (url : String) :
    QueryOut :=
  let out := (readerRun server mapMsg maxN fuel url []).1
  ⟨out, out.length⟩

/-- `filterAllMailByDate({access_token, startIso, endIso, top})`
(lines 202-217). -/
def filterAllMailByDate (server : String → Page GraphMsg) (top fuel : Nat) (url : String) :
    QueryOut :=
  let out := (readerRun server mapMsg top fuel url []).1
  ⟨out, out.length⟩

/-! ## Searches (lines 143-199 and 223-289) -/

/-- The manual accumulation loop shared, verbatim, by `searchAllMail`,
`searchAllMailAllPages` and `searchBySenderEmail`: fetch the page, push
`mapMsg` of each item, return the accumulator as soon as
`out.length >= bound`, otherwise follow `@odata.nextLink`, stopping when it is
absent. -/
def searchLoop (server : String → Page GraphMsg) (bound : Nat) :
    Nat → String → List MappedMsg → List MappedMsg
  | 0, _, acc => acc
  | fuel + 1, url, acc =>
    let p := server url
    let pushed := pushUpTo bound acc (p.value.map mapMsg)
    if pushed.2 then pushed.1
    else
      match p.nextLink with
      | none => pushed.1
      | some next => searchLoop server bound fuel next pushed.1

/-- One insertion step of
`out.sort((a, b) => (a.received < b.received ? 1 : -1))`: place `m` before
the first element whose `received` is strictly smaller. -/
def insertByReceivedDesc (m : MappedMsg) : List MappedMsg → List MappedMsg
  | [] => [m]
  | x :: xs =>
    if x.received < m.received then m :: x :: xs else x :: insertByReceivedDesc m xs

/-- The final sort by received timestamp descending applied by the
search-style operations. -/
def sortByReceivedDesc (l : List MappedMsg) : List MappedMsg :=
  l.foldr insertByReceivedDesc []

/-- `searchAllMail({access_token, query, top})` (lines 143-171): bounded
keyword search; both exits sort the accumulated results before returning. -/
def searchAllMail (server : String → Page GraphMsg) (top fuel : Nat) (url : String) : QueryOut :=
  let out := sortByReceivedDesc (searchLoop server top fuel url [])
  ⟨out, out.length⟩

/-- `searchAllMailAllPages({access_token, query, max})` (lines 175-199): deep
keyword search; both exits return the accumulated results directly, with no
final sort. -/
def searchAllMailAllPages (server : String → Page GraphMsg) (maxN fuel : Nat) (url : String) :
    QueryOut :=
  let out := searchLoop server maxN fuel url []
  ⟨out, out.length⟩

/-- The `{ results, count, email }` shape of `searchBySenderEmail`. -/
structure SenderOut where
  results : List MappedMsg
  count : Nat
  email : String
deriving Repr, DecidableEq

/-- `searchBySenderEmail({access_token, email, limit, ...})` (lines 223-253),
after its `email` presence check: exhaustive `$filter` crawl; both exits sort
the accumulated results before returning. -/
def searchBySenderEmail (server : String → Page GraphMsg) (email : String) (limit fuel : Nat)
    (url : String) : SenderOut :=
  let out := sortByReceivedDesc (searchLoop server limit fuel url [])
  ⟨out, out.length, email⟩

/-- `senders.add(...)` on a JS `Set`: insertion-ordered, first occurrence
wins. -/
def addToSet (s : String) (l : List String) : List String :=
  if l.contains s then l else l ++ [s]

/-- Phase 2 preparation of the sender-name bootstrap (lines 270-274): the
distinct lowercased nonempty trimmed sender addresses of the sampled results,
in first-occurrence order. -/
def collectSenders (ms : List MappedMsg) : List String :=
  ms.foldl
    (fun acc m =>
      let addr := jsTrim (match m.fromAddress with | some a => a | none => "")
      if addr == "" then acc else addToSet (jsLower addr) acc)
    []

/-- `uniq = all.filter(m => (seen.has(m.id) ? false : (seen.add(m.id), true)))`
(line 285): deduplicate by id, first occurrence wins. -/
def dedupeById : List MappedMsg → List String → List MappedMsg
  | [], _ => []
  | m :: rest, seen =>
    if seen.contains m.id then dedupeById rest seen
    else m :: dedupeById rest (m.id :: seen)

/-- The `{ results, count, discoveredSenders }` shape of the bootstrap. -/
structure BootstrapOut where
  results : List MappedMsg
  count : Nat
  discoveredSenders : List String
deriving Repr, DecidableEq

/-- `searchSenderByNameBootstrap({access_token, name, maxAqs, perSenderLimit})`
(lines 261-289), after its `name` presence check.  `aqsUrl` is the phase-1
search URL and `emailUrl e` the phase-2 crawl URL for the discovered sender
`e`. -/
def searchSenderByNameBootstrap (server : String → Page GraphMsg)
    (maxAqs perSenderLimit fuel : Nat) (aqsUrl : String) (emailUrl : String → String) :
    BootstrapOut :=
  let aqs := searchAllMailAllPages server maxAqs fuel aqsUrl
  let senders := collectSenders aqs.results
  if senders.isEmpty then ⟨[], 0, []⟩
  else
    let all := (senders.map
      (fun e => (searchBySenderEmail server e perSenderLimit fuel (emailUrl e)).results)).flatten
    let uniq := sortByReceivedDesc (dedupeById all [])
    ⟨uniq, uniq.length, senders⟩

/-! ## Token store (`tokenStore.js`) -/

/-- One row of the `tokens` table. -/
structure TokenRecord where
  access_token : String
  refresh_token : Option String
  expiry : Int
  scopes : Option String
  created_at : Int
  updated_at : Int
deriving Repr, DecidableEq

/-- The token fields handed to `set` (everything except the timestamps, which
`set` supplies itself). -/
structure TokenFields where
  access_token : String
  refresh_token : Option String
  expiry : Int
  scopes : Option String
deriving Repr, DecidableEq

/-- The `tokens` table as its rows in order.  `user_id` is the primary key, so
every table reachable through the operations below binds a key at most
once. -/
abbrev TokenTable := List (String × TokenRecord)

/-- `upsertStmt` (tokenStore.js lines 38-47):
`INSERT ... ON CONFLICT(user_id) DO UPDATE SET access_token, refresh_token,
expiry, scopes, updated_at = excluded...` — on conflict every token field and
`updated_at` are replaced, while `created_at` is absent from the update list
and therefore kept. -/
def upsertRow (user_id : String) (c : TokenFields) (ts : Int) : TokenTable → TokenTable
  | [] => [(user_id, ⟨c.access_token, c.refresh_token, c.expiry, c.scopes, ts, ts⟩)]
  | (k, r) :: rest =>
    if k = user_id then
      (k, ⟨c.access_token, c.refresh_token, c.expiry, c.scopes, r.created_at, ts⟩) :: rest
    else (k, r) :: upsertRow user_id c ts rest

/-- `set(user_id, {...})` (tokenStore.js lines 55-60): run the upsert with
`ts = Date.now()` as both candidate timestamps. -/
def set (t : TokenTable) (user_id : String) (c : TokenFields) (ts : Int) : TokenTable :=
  upsertRow user_id c ts t

/-- `get(user_id)` (tokenStore.js lines 61-63):
`SELECT * FROM tokens WHERE user_id = ?`, `null` when absent. -/
def get : TokenTable → String → Option TokenRecord
  | [], _ => none
  | (k, r) :: rest, user_id => if k = user_id then some r else get rest user_id

/-- `deleteExpired()` (tokenStore.js lines 51 and 67-69):
`DELETE FROM tokens WHERE expiry <= ?`; returns the surviving table and the
statement's `changes` count. -/
def deleteExpired (now : Int) : TokenTable → TokenTable × Nat
  | [] => ([], 0)
  | (k, r) :: rest =>
    let res := deleteExpired now rest
    if r.expiry ≤ now then (res.1, res.2 + 1) else ((k, r) :: res.1, res.2)

/-! ## Token validity (`getValidToken`, index.js lines 34-40) -/

/-- `getValidToken(user_id)`: look the record up and honor it only when
`rec.expiry - 60000 > Date.now()`; otherwise (absent, expired, or within the
60 s skew window) report no usable credential. -/
def getValidToken (t : TokenTable) (user_id : String) (now : Int) : Option String :=
  match get t user_id with
  | none => none
  | some r => if r.expiry - 60000 > now then some r.access_token else none

/-! ## OAuth callback (`/auth/callback`, auth router lines 55-123) -/

/-- The query parameters the callback destructures (`error_description` only
feeds the error message and is omitted).  `none` models an absent
parameter. -/
structure CallbackQuery where
  code : Option String
  state : Option String
  error : Option String
  format : Option String
deriving Repr, DecidableEq

/-- Outcome of the code-for-token POST to the token endpoint. -/
inductive TokenExchange where
  | success (access_token : String) (refresh_token : Option String) (expires_in : Int)
  | failure (body : String)
deriving Repr, DecidableEq

/-- `/auth/callback`: returns the token table after the request together with
the HTTP status sent.  `scopes` is the configured `SCOPES` string and `now` is
`Date.now()` during the exchange.  The route rejects a truthy `error`
parameter, then missing `code`/`state`, then exchanges the code; only a
successful exchange stores anything, under the `state` value, with
`expiry = Date.now() + expires_in * 1000`. -/
def authCallback (q : CallbackQuery) (exchange : TokenExchange) (scopes : String)
    (t : TokenTable) (now : Int) : TokenTable × Nat :=
  if jsTruthy q.error then (t, 400)
  else if !(jsTruthy q.code) || !(jsTruthy q.state) then (t, 400)
  else
    match exchange with
    | .failure _ => (t, 400)
    | .success access_token refresh_token expires_in =>
      let user_id := match q.state with | some s => s | none => ""
      (set t user_id ⟨access_token, refresh_token, now + expires_in * 1000, some scopes⟩ now,
        200)

/-! ## `/execute_tool` request gate (index.js lines 80-126) -/

/-- `BAD_TOKENS` (index.js line 96). -/
def badTokens : List String := ["", "new", "temp", "current", "me", "self"]

/-- A hexadecimal digit, either case (the `[0-9a-f]` atoms of `UUID_RE` under
the `i` flag). -/
def isHexChar (c : Char) : Bool :=
  c.isDigit || ('a' ≤ c && c ≤ 'f') || ('A' ≤ c && c ≤ 'F')

/-- `UUID_RE` (index.js line 95), position by position: 36 characters, dashes
at 8/13/18/23, a version digit `[1-5]` at 14, a variant `[89ab]` (either case)
at 19, hex everywhere else. -/
def uuidReTest (s : String) : Bool :=
  s.data.length == 36 &&
  (List.range 36).all fun i =>
    let c := s.data.getD i ' '
    if i == 8 || i == 13 || i == 18 || i == 23 then c == '-'
    else if i == 14 then '1' ≤ c && c ≤ '5'
    else if i == 19 then
      c == '8' || c == '9' || c == 'a' || c == 'b' || c == 'A' || c == 'B'
    else isHexChar c

/-- The fields of the `/execute_tool` JSON replies the gate can send before
any action runs. -/
structure ToolReply where
  status : Nat
  requires_login : Bool
  user_id : Option String
  login_url : Option String
  error : Option String
deriving Repr, DecidableEq

/-- The gate of `/execute_tool` (index.js lines 80-126): bearer API-key check,
then strict user-id validation (trimmed, not a placeholder token, UUID
shaped — else a fresh id is minted and returned), then the token check.
`Sum.inr token` means the request proceeds to the action dispatch with that
access token; `Sum.inl` is an early reply.  `encode` is `encodeURIComponent`
and `minted` the `crypto.randomUUID()` value. -/
def executeToolGate (encode : String → String) (baseUrl apiKey : String)
    (providedKey : Option String) (bodyUserId : String) (minted : String)
    (t : TokenTable) (now : Int) : ToolReply ⊕ String :=
  if !(jsTruthy providedKey) || providedKey != some apiKey then
    Sum.inl ⟨401, true, none, some (baseUrl ++ "/login?user_id=temp"), some "Invalid API key"⟩
  else
    let user_id := jsTrim bodyUserId
    if user_id == "" || badTokens.contains (jsLower user_id) || !(uuidReTest user_id) then
      Sum.inl ⟨400, true, some minted, some (baseUrl ++ "/login?user_id=" ++ encode minted),
        some "user_id_required"⟩
    else
      match getValidToken t user_id now with
      | none =>
        Sum.inl ⟨200, true, some user_id, some (baseUrl ++ "/login?user_id=" ++ encode user_id),
          none⟩
      | some token => Sum.inr token

/-! ## Concrete fixtures used by the example-level theorems -/

/-- A message fixture: id `i`, received timestamp `r`, sender `s`. -/
def mkMsg (i : String) (r : Int) (s : String) : GraphMsg :=
  ⟨i, r, none, none, some s, "subject " ++ i, "preview " ++ i, "folder"⟩

/-- A one-page server whose single page holds two messages in ascending
received order and carries no continuation link. -/
def onePageServer : String → Page GraphMsg :=
  fun _ => ⟨[mkMsg "a" 1 "s@x.com", mkMsg "b" 2 "s@x.com"], none⟩

/-- A three-page collection: pages of 2, 2 and 1 items, linked
`"p1" → "p2" → "p3"`, with no link on the last page. -/
def threePageServer : String → Page GraphMsg :=
  fun u =>
    if u = "p1" then ⟨[mkMsg "1" 50 "s@x.com", mkMsg "2" 40 "s@x.com"], some "p2"⟩
    else if u = "p2" then ⟨[mkMsg "3" 30 "s@x.com", mkMsg "4" 20 "s@x.com"], some "p3"⟩
    else ⟨[mkMsg "5" 10 "s@x.com"], none⟩

/-- Responses for the Retry-After counterexample: the first attempt is
throttled with `Retry-After: 0`, the second succeeds. -/
def retryAfterZeroResponses : Nat → FetchOutcome Nat :=
  fun i => if i == 0 then .err 429 (some 0) "throttled" else .ok 7

/-- Responses that fail with 503 on every attempt. -/
def always503 : Nat → FetchOutcome Nat :=
  fun _ => .err 503 none "service unavailable"

/-- A well-formed identity key (version-1 UUID shape). -/
def sampleUuid : String := "123e4567-e89b-12d3-a456-426614174000"

/-! ## Retry loop lemmas -/

theorem httpGetLoop_calls_le {α : Type} (responses : Nat → FetchOutcome α) :
    ∀ rem attempt, (httpGetLoop responses attempt rem).calls ≤ rem + 1 := by
  intro rem
  induction rem with
  | zero =>
    intro attempt
    unfold httpGetLoop
    cases responses attempt with
    | ok v => simp
    | err s ra b => by_cases hr : retryableStatus s <;> simp [hr]
  | succ n ih =>
    intro attempt
    unfold httpGetLoop
    cases responses attempt with
    | ok v => simp
    | err s ra b =>
      by_cases hr : retryableStatus s <;> simp [hr]
      have := ih (attempt + 1)
      omega

theorem httpGetLoop_exhaust {α : Type} (responses : Nat → FetchOutcome α) :
    ∀ rem attempt,
      (∀ i, attempt ≤ i → i ≤ attempt + rem →
        ∃ s ra b, responses i = FetchOutcome.err s ra b ∧ retryableStatus s = true) →
      (httpGetLoop responses attempt rem).calls = rem + 1 ∧
      (httpGetLoop responses attempt rem).delays.length = rem ∧
      ∀ s ra b, responses (attempt + rem) = FetchOutcome.err s ra b →
        (httpGetLoop responses attempt rem).result = Except.error (s, b) := by
  intro rem
  induction rem with
  | zero =>
    intro attempt h
    obtain ⟨s, ra, b, hresp, hr⟩ := h attempt le_rfl (by omega)
    unfold httpGetLoop
    rw [hresp]
    simp only [hr, if_true, Nat.add_zero]
    refine ⟨by simp, by simp, ?_⟩
    intro s2 ra2 b2 h2
    rw [hresp] at h2
    cases h2
    rfl
  | succ n ih =>
    intro attempt h
    obtain ⟨s, ra, b, hresp, hr⟩ := h attempt le_rfl (by omega)
    have ihm := ih (attempt + 1) (fun i h1 h2 => h i (by omega) (by omega))
    unfold httpGetLoop
    rw [hresp]
    simp only [hr, if_true]
    refine ⟨by simp [ihm.1], by simp [ihm.2.1], ?_⟩
    intro s2 ra2 b2 h2
    have harith : attempt + 1 + n = attempt + (n + 1) := by omega
    have := ihm.2.2 s2 ra2 b2 (by rw [harith]; exact h2)
    simp [this]

/-- **C1.** Counterexample to the claim as stated: a response that carries the
`Retry-After` value `0` does not produce a 0-second delay; the run sleeps the
exponential fallback (1 second at attempt 0) instead, because `Number(...) = 0`
is falsy and `||` skips it. -/
theorem retryAfter_zero_counterexample :
    (httpGetWithBackoff retryAfterZeroResponses 4).delays = [1] ∧
    (httpGetWithBackoff retryAfterZeroResponses 4).delays ≠ [0] := by
  decide

/-- **C1 (amended).** For every retryable failed attempt, the delay before the
next attempt is: the `Retry-After` value when it parses to a nonzero number;
otherwise (header absent, non-numeric, or zero) `min(2 ^ attempt, 16)`
seconds, so that with no `Retry-After` the delays follow 1, 2, 4, 8, 16
capped at 16; and in the retry loop the sleep recorded before retrying
attempt `a` is exactly `backoffDelay a retryAfter`. -/
theorem backoff_delay_policy :
    (∀ (a : Nat) (v : Int), v ≠ 0 → backoffDelay a (some v) = v) ∧
    (∀ a : Nat, backoffDelay a (some 0) = min ((2 : Int) ^ a) 16) ∧
    (∀ a : Nat, backoffDelay a none = min ((2 : Int) ^ a) 16) ∧
    ((List.range 5).map (fun a => backoffDelay a none) = [1, 2, 4, 8, 16]) ∧
    (∀ (α : Type) (responses : Nat → FetchOutcome α) (attempt rem : Nat) s ra b,
      responses attempt = FetchOutcome.err s ra b → retryableStatus s = true →
      (httpGetLoop responses attempt (rem + 1)).delays =
        backoffDelay attempt ra :: (httpGetLoop responses (attempt + 1) rem).delays) := by
  refine ⟨?_, ?_, ?_, by decide, ?_⟩
  · intro a v hv
    simp [backoffDelay, hv]
  · intro a
    simp [backoffDelay]
  · intro a
    simp [backoffDelay]
  · intro α responses attempt rem s ra b hresp hr
    conv_lhs => unfold httpGetLoop
    rw [hresp]
    simp [hr]

theorem backoff_delay_policy_witness :
    backoffDelay 0 (some 3) = 3 ∧
    (httpGetLoop always503 0 (3 + 1)).delays =
      backoffDelay 0 none :: (httpGetLoop always503 (0 + 1) 3).delays :=
  ⟨backoff_delay_policy.1 0 3 (by decide),
    backoff_delay_policy.2.2.2.2 Nat always503 0 3 503 none "service unavailable" rfl
      (by decide)⟩

/-- **C2.** `httpGetWithBackoff` retries only when the failed attempt's status
is 429 or at least 500; any other error status fails immediately, with one
network call, no sleep, and the error surfaced unchanged; with the default 4
max retries a run never makes more than 5 calls; and when every attempt up to
the 5th fails with a retryable status, the run makes exactly 5 calls, sleeps 4
times, and surfaces the 5th attempt's status and body unchanged. -/
theorem httpGetWithBackoff_retry_policy :
    (∀ (α : Type) (responses : Nat → FetchOutcome α) s ra b maxRetries,
      responses 0 = FetchOutcome.err s ra b → retryableStatus s = false →
      httpGetWithBackoff responses maxRetries = ⟨Except.error (s, b), 1, []⟩) ∧
    (∀ (α : Type) (responses : Nat → FetchOutcome α) maxRetries,
      1 < (httpGetWithBackoff responses maxRetries).calls →
      ∃ s ra b, responses 0 = FetchOutcome.err s ra b ∧ (s = 429 ∨ 500 ≤ s)) ∧
    (∀ (α : Type) (responses : Nat → FetchOutcome α),
      (httpGetWithBackoff responses 4).calls ≤ 5) ∧
    (∀ (α : Type) (responses : Nat → FetchOutcome α),
      (∀ i, i ≤ 4 → ∃ s ra b, responses i = FetchOutcome.err s ra b ∧
        retryableStatus s = true) →
      (httpGetWithBackoff responses 4).calls = 5 ∧
      (httpGetWithBackoff responses 4).delays.length = 4 ∧
      ∀ s ra b, responses 4 = FetchOutcome.err s ra b →
        (httpGetWithBackoff responses 4).result = Except.error (s, b)) := by
  refine ⟨?_, ?_, ?_, ?_⟩
  · intro α responses s ra b maxRetries hresp hr
    unfold httpGetWithBackoff httpGetLoop
    rw [hresp]
    simp [hr]
  · intro α responses maxRetries hcalls
    unfold httpGetWithBackoff httpGetLoop at hcalls
    cases hresp : responses 0 with
    | ok v => rw [hresp] at hcalls; simp at hcalls
    | err s ra b =>
      rw [hresp] at hcalls
      by_cases hr : retryableStatus s
      · refine ⟨s, ra, b, rfl, ?_⟩
        simpa [retryableStatus] using hr
      · simp [hr] at hcalls
  · intro α responses
    exact httpGetLoop_calls_le responses 4 0
  · intro α responses h
    have := httpGetLoop_exhaust responses 4 0 (fun i h1 h2 => h i (by omega))
    exact ⟨this.1, this.2.1, fun s ra b hresp => this.2.2 s ra b (by simpa using hresp)⟩

theorem httpGetWithBackoff_retry_policy_witness :
    (httpGetWithBackoff always503 4).calls = 5 ∧
    (httpGetWithBackoff always503 4).delays.length = 4 ∧
    (httpGetWithBackoff always503 4).result = Except.error (503, "service unavailable") := by
  have h := httpGetWithBackoff_retry_policy.2.2.2 Nat always503
    (fun i _ => ⟨503, none, "service unavailable", rfl, by decide⟩)
  exact ⟨h.1, h.2.1, h.2.2 503 none "service unavailable" rfl⟩

/-! ## Pagination lemmas -/

theorem pushUpTo_length {α : Type} (bound : Nat) :
    ∀ (items acc : List α), acc.length < bound →
      ((pushUpTo bound acc items).2 = true → ((pushUpTo bound acc items).1).length ≤ bound) ∧
      ((pushUpTo bound acc items).2 = false → ((pushUpTo bound acc items).1).length < bound) := by
  intro items
  induction items with
  | nil =>
    intro acc hacc
    unfold pushUpTo
    exact ⟨by simp, fun _ => hacc⟩
  | cons m rest ih =>
    intro acc hacc
    unfold pushUpTo
    by_cases hb : bound ≤ (acc ++ [m]).length
    · simp only [hb, if_true]
      refine ⟨fun _ => ?_, by simp⟩
      simp
      omega
    · simp only [hb, if_false]
      exact ih (acc ++ [m]) (by simp at hb ⊢; omega)

theorem pushUpTo_breaks {α : Type} (bound : Nat) :
    ∀ (items acc : List α), acc.length < bound → bound ≤ acc.length + items.length →
      (pushUpTo bound acc items).2 = true := by
  intro items
  induction items with
  | nil =>
    intro acc h1 h2
    simp at h2
    omega
  | cons m rest ih =>
    intro acc h1 h2
    unfold pushUpTo
    by_cases hb : bound ≤ (acc ++ [m]).length
    · have hb2 : bound ≤ acc.length + 1 := by simpa using hb
      simp [hb2]
    · simp only [hb, if_false]
      refine ih (acc ++ [m]) (by simp at hb ⊢; omega) ?_
      simp at h2 ⊢
      omega

theorem readerRun_length {α β : Type} (server : String → Page α) (shape : α → β)
    (bound : Nat) :
    ∀ (fuel : Nat) (url : String) (acc : List β), acc.length < bound →
      ((readerRun server shape bound fuel url acc).1).length ≤ bound := by
  intro fuel
  induction fuel with
  | zero =>
    intro url acc h
    unfold readerRun
    simp
    omega
  | succ n ih =>
    intro url acc h
    unfold readerRun
    have hp := pushUpTo_length bound ((server url).value.map shape) acc h
    cases hb : (pushUpTo bound acc ((server url).value.map shape)).2 with
    | true =>
      simp only [hb, if_true]
      exact hp.1 hb
    | false =>
      simp only [hb, if_false]
      cases (server url).nextLink with
      | none => exact le_of_lt (hp.2 hb)
      | some next => exact ih next _ (hp.2 hb)

theorem readerRun_stops_on_first_page {α β : Type} (server : String → Page α)
    (shape : α → β) (bound fuel : Nat) (url : String) :
    1 ≤ bound → bound ≤ (server url).value.length →
    (readerRun server shape bound (fuel + 1) url []).2 = 1 := by
  intro h1 h2
  unfold readerRun
  have hbr : (pushUpTo bound [] ((server url).value.map shape)).2 = true :=
    pushUpTo_breaks bound _ [] (by simpa) (by simpa)
  simp [hbr]

theorem listMessagesItems_chain {α : Type} (server : String → Page α) :
    ∀ (rest : List String) (u : String) (fuel : Nat),
      pageChain server u rest = true → rest.length < fuel →
      listMessagesItems server fuel u = ((u :: rest).map fun w => (server w).value).flatten ∧
      listMessagesFetches server fuel u = u :: rest := by
  intro rest
  induction rest with
  | nil =>
    intro u fuel hchain hfuel
    simp only [pageChain, beq_iff_eq] at hchain
    cases fuel with
    | zero => omega
    | succ n =>
      unfold listMessagesItems listMessagesFetches
      simp [hchain]
  | cons v rest ih =>
    intro u fuel hchain hfuel
    simp only [pageChain, Bool.and_eq_true, beq_iff_eq] at hchain
    obtain ⟨h1, h2⟩ := hchain
    cases fuel with
    | zero => simp at hfuel
    | succ n =>
      have ihm := ih v n h2 (by simp at hfuel ⊢; omega)
      unfold listMessagesItems listMessagesFetches
      simp [h1, ihm.1, ihm.2]

/-- **C3.** The `listMessages`/`listCollection` generator yields each item of
each page's `value` array in server order, advances only through the
continuation link, and terminates exactly at the first page with no link: over
any finite link chain it yields the concatenation of the pages' arrays and
fetches exactly the chain's URLs; a bounded consumer already satisfied by the
first page causes no further page fetch; and on the concrete 3-page collection
(2, 2, 1 items, no link on page 3) it yields exactly those 5 items in order,
fetches exactly the 3 pages, and a consumer stopping after 2 items fetches
only 1 page. -/
theorem listMessages_pagination :
    (∀ (α : Type) (server : String → Page α) (u : String) (rest : List String) (fuel : Nat),
      pageChain server u rest = true → rest.length < fuel →
      listMessagesItems server fuel u = ((u :: rest).map fun w => (server w).value).flatten ∧
      listMessagesFetches server fuel u = u :: rest) ∧
    (∀ (α β : Type) (server : String → Page α) (shape : α → β) (bound fuel : Nat)
      (url : String),
      1 ≤ bound → bound ≤ (server url).value.length →
      (readerRun server shape bound (fuel + 1) url []).2 = 1) ∧
    (listMessagesItems threePageServer 10 "p1" =
        [mkMsg "1" 50 "s@x.com", mkMsg "2" 40 "s@x.com", mkMsg "3" 30 "s@x.com",
          mkMsg "4" 20 "s@x.com", mkMsg "5" 10 "s@x.com"] ∧
      listMessagesFetches threePageServer 10 "p1" = ["p1", "p2", "p3"] ∧
      (readerRun threePageServer mapMsg 2 10 "p1" []).2 = 1) :=
  ⟨fun _ server u rest fuel h1 h2 => listMessagesItems_chain server rest u fuel h1 h2,
    fun _ _ server shape bound fuel url h1 h2 =>
      readerRun_stops_on_first_page server shape bound fuel url h1 h2,
    by decide⟩

theorem listMessages_pagination_witness :
    (listMessagesItems threePageServer 4 "p1" =
        ((["p1", "p2", "p3"]).map fun w => (threePageServer w).value).flatten ∧
      listMessagesFetches threePageServer 4 "p1" = ["p1", "p2", "p3"]) ∧
    (readerRun threePageServer mapMsg 1 (2 + 1) "p1" []).2 = 1 :=
  ⟨listMessages_pagination.1 GraphMsg threePageServer "p1" ["p2", "p3"] 4 (by decide)
      (by decide),
    listMessages_pagination.2.1 GraphMsg MappedMsg threePageServer mapMsg 1 2 "p1"
      (by decide) (by decide)⟩

/-! ## Sorting lemmas -/

theorem mem_insertByReceivedDesc {a m : MappedMsg} :
    ∀ {l : List MappedMsg}, a ∈ insertByReceivedDesc m l → a = m ∨ a ∈ l := by
  intro l
  induction l with
  | nil =>
    intro h
    simp [insertByReceivedDesc] at h
    exact Or.inl h
  | cons x xs ih =>
    intro h
    unfold insertByReceivedDesc at h
    by_cases hx : x.received < m.received
    · simp only [hx, if_true] at h
      rcases List.mem_cons.mp h with h2 | h2
      · exact Or.inl h2
      · exact Or.inr h2
    · simp only [hx, if_false] at h
      rcases List.mem_cons.mp h with h2 | h2
      · exact Or.inr (by simp [h2])
      · rcases ih h2 with h3 | h3
        · exact Or.inl h3
        · exact Or.inr (by simp [h3])

theorem pairwise_insertByReceivedDesc (m : MappedMsg) :
    ∀ l : List MappedMsg, l.Pairwise (fun a b => b.received ≤ a.received) →
      (insertByReceivedDesc m l).Pairwise (fun a b => b.received ≤ a.received) := by
  intro l
  induction l with
  | nil =>
    intro _
    simp [insertByReceivedDesc]
  | cons x xs ih =>
    intro h
    rw [List.pairwise_cons] at h
    unfold insertByReceivedDesc
    by_cases hx : x.received < m.received
    · simp only [hx, if_true]
      rw [List.pairwise_cons]
      refine ⟨?_, List.pairwise_cons.mpr h⟩
      intro b hb
      rcases List.mem_cons.mp hb with rfl | hb2
      · exact le_of_lt hx
      · exact le_trans (h.1 b hb2) (le_of_lt hx)
    · simp only [hx, if_false]
      rw [List.pairwise_cons]
      refine ⟨?_, ih h.2⟩
      intro b hb
      rcases mem_insertByReceivedDesc hb with rfl | hb2
      · exact le_of_not_lt hx
      · exact h.1 b hb2

theorem sorted_sortByReceivedDesc (l : List MappedMsg) :
    (sortByReceivedDesc l).Pairwise (fun a b => b.received ≤ a.received) := by
  unfold sortByReceivedDesc
  induction l with
  | nil => simp
  | cons x xs ih => exact pairwise_insertByReceivedDesc x _ ih

theorem length_insertByReceivedDesc (m : MappedMsg) :
    ∀ l : List MappedMsg, (insertByReceivedDesc m l).length = l.length + 1 := by
  intro l
  induction l with
  | nil => rfl
  | cons x xs ih =>
    unfold insertByReceivedDesc
    by_cases hx : x.received < m.received <;> simp [hx, ih]

theorem length_sortByReceivedDesc (l : List MappedMsg) :
    (sortByReceivedDesc l).length = l.length := by
  unfold sortByReceivedDesc
  induction l with
  | nil => rfl
  | cons x xs ih => simp [length_insertByReceivedDesc, ih]

theorem searchLoop_length (server : String → Page GraphMsg) (bound : Nat) :
    ∀ (fuel : Nat) (url : String) (acc : List MappedMsg), acc.length < bound →
      (searchLoop server bound fuel url acc).length ≤ bound := by
  intro fuel
  induction fuel with
  | zero =>
    intro url acc h
    unfold searchLoop
    omega
  | succ n ih =>
    intro url acc h
    unfold searchLoop
    have hp := pushUpTo_length bound ((server url).value.map mapMsg) acc h
    cases hb : (pushUpTo bound acc ((server url).value.map mapMsg)).2 with
    | true =>
      simp only [hb, if_true]
      exact hp.1 hb
    | false =>
      simp only [hb, if_false]
      cases (server url).nextLink with
      | none => exact le_of_lt (hp.2 hb)
      | some next => exact ih next _ (hp.2 hb)

/-- **C7.** Counterexample to the claim as stated: `searchAllMailAllPages`
applies no final sort, so on a single page whose two items arrive in ascending
received order the returned results are not sorted by received timestamp
descending. -/
theorem searchAllMailAllPages_unsorted_counterexample :
    (searchAllMailAllPages onePageServer 1000 5 "u").results.map MappedMsg.received =
      [1, 2] ∧
    ¬ (searchAllMailAllPages onePageServer 1000 5 "u").results.Pairwise
      (fun a b => b.received ≤ a.received) := by
  constructor
  · decide
  · intro h
    rw [List.pairwise_iff_getElem] at h
    have := h 0 1 (by decide) (by decide) (by decide)
    revert this
    decide

/-- **C7 (amended).** `searchAllMail`, `searchBySenderEmail` and the
sender-name bootstrap return their final accumulated results sorted by
received timestamp descending; `searchAllMailAllPages` returns the
accumulated results in accumulation (server) order, with no final sort. -/
theorem search_results_sorted_desc :
    (∀ (server : String → Page GraphMsg) (top fuel : Nat) (url : String),
      (searchAllMail server top fuel url).results.Pairwise
        (fun a b => b.received ≤ a.received)) ∧
    (∀ (server : String → Page GraphMsg) (email : String) (limit fuel : Nat) (url : String),
      (searchBySenderEmail server email limit fuel url).results.Pairwise
        (fun a b => b.received ≤ a.received)) ∧
    (∀ (server : String → Page GraphMsg) (maxAqs perSenderLimit fuel : Nat)
      (aqsUrl : String) (emailUrl : String → String),
      (searchSenderByNameBootstrap server maxAqs perSenderLimit fuel aqsUrl
        emailUrl).results.Pairwise (fun a b => b.received ≤ a.received)) ∧
    (∀ (server : String → Page GraphMsg) (maxN fuel : Nat) (url : String),
      (searchAllMailAllPages server maxN fuel url).results =
        searchLoop server maxN fuel url []) := by
  refine ⟨?_, ?_, ?_, fun _ _ _ _ => rfl⟩
  · intro server top fuel url
    exact sorted_sortByReceivedDesc _
  · intro server email limit fuel url
    exact sorted_sortByReceivedDesc _
  · intro server maxAqs perSenderLimit fuel aqsUrl emailUrl
    unfold searchSenderByNameBootstrap
    by_cases hempty :
        (collectSenders (searchAllMailAllPages server maxAqs fuel aqsUrl).results).isEmpty
    · simp [hempty]
    · simp only [hempty, Bool.false_eq_true, if_false]
      exact sorted_sortByReceivedDesc _

/-- **C10.** Counterexample to the claim as stated: with a caller-supplied
bound of 0 and a nonempty mailbox, `readLatest` pushes one item before the
`out.length >= top` check runs, so the returned results array has length 1,
exceeding the bound. -/
theorem readLatest_zero_bound_counterexample :
    (readLatest onePageServer 0 5 "u").results.length = 1 ∧
    ¬ ((readLatest onePageServer 0 5 "u").results.length ≤ 0) := by
  decide

/-- **C10 (amended).** Every query operation returns a count equal to the
length of its results array, and whenever the caller-supplied bound
(`top` / `max` / `limit`) is at least 1, the results array's length never
exceeds that bound. -/
theorem query_count_and_bound :
    (∀ (server : String → Page GraphMsg) (top fuel : Nat) (url : String),
      (readLatest server top fuel url).count = (readLatest server top fuel url).results.length ∧
      (1 ≤ top → (readLatest server top fuel url).results.length ≤ top)) ∧
    (∀ (server : String → Page GraphMsg) (maxN fuel : Nat) (url : String),
      (readAllMailbox server maxN fuel url).count =
        (readAllMailbox server maxN fuel url).results.length ∧
      (1 ≤ maxN → (readAllMailbox server maxN fuel url).results.length ≤ maxN)) ∧
    (∀ (server : String → Page GraphMsg) (maxN fuel : Nat) (url : String),
      (readFolderByIdAll server maxN fuel url).count =
        (readFolderByIdAll server maxN fuel url).results.length ∧
      (1 ≤ maxN → (readFolderByIdAll server maxN fuel url).results.length ≤ maxN)) ∧
    (∀ (server : String → Page GraphMsg) (maxN fuel : Nat) (url : String),
      (searchAllMailAllPages server maxN fuel url).count =
        (searchAllMailAllPages server maxN fuel url).results.length ∧
      (1 ≤ maxN → (searchAllMailAllPages server maxN fuel url).results.length ≤ maxN)) ∧
    (∀ (server : String → Page GraphMsg) (email : String) (limit fuel : Nat) (url : String),
      (searchBySenderEmail server email limit fuel url).count =
        (searchBySenderEmail server email limit fuel url).results.length ∧
      (1 ≤ limit → (searchBySenderEmail server email limit fuel url).results.length ≤ limit)) := by
  refine ⟨?_, ?_, ?_, ?_, ?_⟩
  · intro server top fuel url
    exact ⟨rfl, fun h => readerRun_length server mapMsg top fuel url [] (by simpa)⟩
  · intro server maxN fuel url
    exact ⟨rfl, fun h => readerRun_length server mapMsg maxN fuel url [] (by simpa)⟩
  · intro server maxN fuel url
    exact ⟨rfl, fun h => readerRun_length server mapMsg maxN fuel url [] (by simpa)⟩
  · intro server maxN fuel url
    exact ⟨rfl, fun h => searchLoop_length server maxN fuel url [] (by simpa)⟩
  · intro server email limit fuel url
    refine ⟨rfl, fun h => ?_⟩
    show (sortByReceivedDesc (searchLoop server limit fuel url [])).length ≤ limit
    rw [length_sortByReceivedDesc]
    exact searchLoop_length server limit fuel url [] (by simpa)

theorem query_count_and_bound_witness :
    (readLatest onePageServer 1 5 "u").count =
      (readLatest onePageServer 1 5 "u").results.length ∧
    (readLatest onePageServer 1 5 "u").results.length ≤ 1 := by
  have h := query_count_and_bound.1 onePageServer 1 5 "u"
  exact ⟨h.1, h.2 (by decide)⟩

/-! ## Token store lemmas -/

theorem get_upsertRow_self (k : String) (c : TokenFields) (ts : Int) :
    ∀ t : TokenTable,
      get (upsertRow k c ts t) k =
        some ⟨c.access_token, c.refresh_token, c.expiry, c.scopes,
          (match get t k with | some r0 => r0.created_at | none => ts), ts⟩ := by
  intro t
  induction t with
  | nil => simp [upsertRow, get]
  | cons p rest ih =>
    obtain ⟨k2, r⟩ := p
    unfold upsertRow
    by_cases hk : k2 = k
    · subst hk
      simp [get]
    · simp only [hk, if_false]
      unfold get
      simp only [hk, if_false]
      exact ih

/-- **C4.** Last write wins with no merge: after `put(k, c1)` then
`put(k, c2)`, `get(k)` returns exactly `c2`'s token fields (access token,
refresh token, expiry, scopes), `updated_at` is the second write's timestamp,
and `created_at` comes from the original insert of `k` — the first write's
timestamp when `k` was fresh, the pre-existing record's `created_at`
otherwise. -/
theorem tokenStore_last_write_wins (t : TokenTable) (k : String) (c1 c2 : TokenFields)
    (ts1 ts2 : Int) :
    get (set (set t k c1 ts1) k c2 ts2) k =
      some ⟨c2.access_token, c2.refresh_token, c2.expiry, c2.scopes,
        (match get t k with | some r0 => r0.created_at | none => ts1), ts2⟩ := by
  unfold set
  rw [get_upsertRow_self, get_upsertRow_self]

/-- **C5.** `sweep_expired(now)` deletes exactly the records whose expiry is
at most `now` (keeping every other row, in order, with all fields unchanged),
returns the number of rows removed, and running it again on the surviving
table removes zero rows. -/
theorem deleteExpired_sweeps_exactly (t : TokenTable) (now : Int) :
    (deleteExpired now t).1 = t.filter (fun p => decide (now < p.2.expiry)) ∧
    (deleteExpired now t).2 = (t.filter (fun p => decide (p.2.expiry ≤ now))).length ∧
    deleteExpired now (deleteExpired now t).1 = ((deleteExpired now t).1, 0) := by
  have hkeep : ∀ t2 : TokenTable,
      (deleteExpired now t2).1 = t2.filter (fun p => decide (now < p.2.expiry)) ∧
      (deleteExpired now t2).2 = (t2.filter (fun p => decide (p.2.expiry ≤ now))).length := by
    intro t2
    induction t2 with
    | nil => simp [deleteExpired]
    | cons p rest ih =>
      unfold deleteExpired
      by_cases hp : p.2.expiry ≤ now
      · have hp2 : ¬ (now < p.2.expiry) := by omega
        simp [hp, hp2, List.filter, ih.1, ih.2]
      · have hp2 : now < p.2.expiry := by omega
        simp [hp, hp2, List.filter, ih.1, ih.2]
  have hclean : ∀ t2 : TokenTable, (∀ p ∈ t2, now < p.2.expiry) →
      deleteExpired now t2 = (t2, 0) := by
    intro t2
    induction t2 with
    | nil => intro _; rfl
    | cons p rest ih =>
      intro hall
      unfold deleteExpired
      have hp : ¬ (p.2.expiry ≤ now) := by
        have := hall p (by simp)
        omega
      simp [hp, ih (fun q hq => hall q (by simp [hq]))]
  refine ⟨(hkeep t).1, (hkeep t).2, ?_⟩
  apply hclean
  intro p hp
  rw [(hkeep t).1] at hp
  exact of_decide_eq_true (List.mem_filter.mp hp).2

/-- **C6.** `getValidToken` treats a stored record as usable exactly when its
expiry lies more than 60000 ms in the future relative to `now`; in particular
a record expiring at `now + 30000` yields no usable credential and one
expiring at `now + 120000` yields its access token. -/
theorem getValidToken_skew_window :
    (∀ (t : TokenTable) (k : String) (now : Int) (r : TokenRecord), get t k = some r →
      ((getValidToken t k now = some r.access_token ↔ now + 60000 < r.expiry) ∧
        (getValidToken t k now = none ↔ ¬ (now + 60000 < r.expiry)))) ∧
    (∀ (now cAt uAt : Int) (tok k : String) (rt : Option String) (sc : Option String),
      getValidToken [(k, ⟨tok, rt, now + 30000, sc, cAt, uAt⟩)] k now = none) ∧
    (∀ (now cAt uAt : Int) (tok k : String) (rt : Option String) (sc : Option String),
      getValidToken [(k, ⟨tok, rt, now + 120000, sc, cAt, uAt⟩)] k now = some tok) := by
  refine ⟨?_, ?_, ?_⟩
  · intro t k now r hget
    unfold getValidToken
    rw [hget]
    by_cases hexp : r.expiry - 60000 > now
    · have : now + 60000 < r.expiry := by omega
      simp [hexp, this]
    · have : ¬ (now + 60000 < r.expiry) := by omega
      simp [hexp, this]
  · intro now cAt uAt tok k rt sc
    unfold getValidToken get
    have : ¬ (now + 30000 - 60000 > now) := by omega
    simp [this]
  · intro now cAt uAt tok k rt sc
    unfold getValidToken get
    have : now + 120000 - 60000 > now := by omega
    simp [this]

theorem getValidToken_skew_window_witness :
    (getValidToken [("k", ⟨"tok", none, 120000, none, 0, 0⟩)] "k" 0 = some "tok" ↔
      (0 : Int) + 60000 < 120000) ∧
    getValidToken [("k", ⟨"tok", none, 30000, none, 0, 0⟩)] "k" 0 = none := by
  constructor
  · exact (getValidToken_skew_window.1 [("k", ⟨"tok", none, 120000, none, 0, 0⟩)] "k" 0
      ⟨"tok", none, 120000, none, 0, 0⟩ (by decide)).1
  · exact ((getValidToken_skew_window.1 [("k", ⟨"tok", none, 30000, none, 0, 0⟩)] "k" 0
      ⟨"tok", none, 30000, none, 0, 0⟩ (by decide)).2).mpr (by decide)

/-! ## OAuth callback and tool gate -/

/-- **C8.** The authorization callback never calls the token store's `put`
when the provider reports an error parameter; it leaves the store untouched
when `code` or `state` is missing and on every exchange failure; and it calls
`put` only after a successful exchange, keyed by `state`, with
`expiry = now + expires_in * 1000`. -/
theorem authCallback_store_discipline (q : CallbackQuery) (exchange : TokenExchange)
    (scopes : String) (t : TokenTable) (now : Int) :
    (∀ e : String, q.error = some e → e ≠ "" →
      authCallback q exchange scopes t now = (t, 400)) ∧
    (jsTruthy q.code = false ∨ jsTruthy q.state = false →
      (authCallback q exchange scopes t now).1 = t) ∧
    (∀ b : String, exchange = TokenExchange.failure b →
      (authCallback q exchange scopes t now).1 = t) ∧
    (∀ (a : String) (rt : Option String) (ei : Int) (uid : String),
      jsTruthy q.error = false → jsTruthy q.code = true → q.state = some uid → uid ≠ "" →
      exchange = TokenExchange.success a rt ei →
      authCallback q exchange scopes t now =
        (set t uid ⟨a, rt, now + ei * 1000, some scopes⟩ now, 200)) := by
  refine ⟨?_, ?_, ?_, ?_⟩
  · intro e he hne
    unfold authCallback
    have herr : jsTruthy q.error = true := by simp [jsTruthy, he, hne]
    simp [herr]
  · intro h
    unfold authCallback
    by_cases herr : jsTruthy q.error
    · simp [herr]
    · have hcs : (!(jsTruthy q.code) || !(jsTruthy q.state)) = true := by
        rcases h with h | h <;> simp [h]
      simp [herr, hcs]
  · intro b hb
    subst hb
    unfold authCallback
    by_cases herr : jsTruthy q.error
    · simp [herr]
    · by_cases hcs : (!(jsTruthy q.code) || !(jsTruthy q.state)) = true
      · simp [herr, hcs]
      · simp [herr, hcs]
  · intro a rt ei uid herr hcode hstate hne hex
    subst hex
    unfold authCallback
    have hs : jsTruthy (some uid) = true := by simp [jsTruthy, hne]
    simp [herr, hcode, hs, hstate]

theorem authCallback_store_discipline_witness :
    authCallback ⟨some "c", some "u", some "access_denied", none⟩
      (TokenExchange.success "A" none 3600) "Mail.ReadWrite" [] 0 = ([], 400) ∧
    (authCallback ⟨some "c", some "u", none, none⟩ (TokenExchange.failure "bad_code")
      "Mail.ReadWrite" [] 0).1 = [] ∧
    authCallback ⟨some "c", some "u", none, none⟩ (TokenExchange.success "A" none 3600)
      "Mail.ReadWrite" [] 0 =
      (set [] "u" ⟨"A", none, 0 + 3600 * 1000, some "Mail.ReadWrite"⟩ 0, 200) := by
  refine ⟨?_, ?_, ?_⟩
  · exact (authCallback_store_discipline ⟨some "c", some "u", some "access_denied", none⟩
      (TokenExchange.success "A" none 3600) "Mail.ReadWrite" [] 0).1
      "access_denied" rfl (by decide)
  · exact (authCallback_store_discipline ⟨some "c", some "u", none, none⟩
      (TokenExchange.failure "bad_code") "Mail.ReadWrite" [] 0).2.2.1 "bad_code" rfl
  · exact (authCallback_store_discipline ⟨some "c", some "u", none, none⟩
      (TokenExchange.success "A" none 3600) "Mail.ReadWrite" [] 0).2.2.2
      "A" none 3600 "u" (by decide) (by decide) rfl (by decide) rfl

/-- **C9.** When the API key matches and the caller supplies a well-formed
identity key for which no usable credential exists, the gate does not raise an
error: it replies with HTTP 200, `requires_login`, the very same identity key,
and a login URL built for that key. -/
theorem requires_login_keeps_identity (encode : String → String)
    (baseUrl apiKey : String) (t : TokenTable) (now : Int) (uid minted : String)
    (hkey : (apiKey == "") = false)
    (htrim : jsTrim uid = uid)
    (hbad : badTokens.contains (jsLower uid) = false)
    (huuid : uuidReTest uid = true)
    (htok : getValidToken t uid now = none) :
    executeToolGate encode baseUrl apiKey (some apiKey) uid minted t now =
      Sum.inl ⟨200, true, some uid,
        some (baseUrl ++ "/login?user_id=" ++ encode uid), none⟩ := by
  have hne : (uid == "") = false := by
    cases he : uid == ""
    · rfl
    · exfalso
      have huid : uid = "" := by simpa using he
      rw [huid] at huuid
      exact absurd huuid (by decide)
  unfold executeToolGate
  have h1 : (!(jsTruthy (some apiKey)) || ((some apiKey : Option String) != some apiKey)) =
      false := by
    simp [jsTruthy, hkey]
  rw [h1]
  simp only [Bool.false_eq_true, if_false, htrim, hne, hbad, huuid]
  simp [htok]

theorem requires_login_keeps_identity_witness :
    executeToolGate id "http://b" "key" (some "key") sampleUuid "m" [] 0 =
      Sum.inl ⟨200, true, some sampleUuid,
        some ("http://b" ++ "/login?user_id=" ++ id sampleUuid), none⟩ :=
  requires_login_keeps_identity id "http://b" "key" [] 0 sampleUuid "m"
    (by decide) (by decide) (by decide) (by decide) rfl

end OutlookMCP
